import Mathlib

/-!
Verification of the kubediag recoverer-chain stage engine and its
validation/condition/context utilities, shallowly embedded from the Go
sources (`pkg/recovererchain/recovererchain.go`, `api/v1/abnormal_types.go`,
the legacy engine generation, and `pkg/util/util_test.go`).  Functions whose
implementation file (`pkg/util/util.go`) is absent are modelled from the
specification and pinned by the in-repository tests.
-/

set_option autoImplicit false

namespace KubeDiag

/-- Mirrors corev1.ConditionStatus: True, False or Unknown. -/
inductive ConditionStatus
  | isTrue
  | isFalse
  | unknown
  deriving DecidableEq, Repr

/-- Mirrors AbnormalPhase from api/v1/abnormal_types.go. -/
inductive AbnormalPhase
  | informationCollecting
  | diagnosing
  | recovering
  | succeeded
  | failed
  | unknown
  deriving DecidableEq, Repr

/-- Mirrors AbnormalProcessorType from api/v1/abnormal_types.go. -/
inductive AbnormalProcessorType
  | informationCollector
  | diagnoser
  | recoverer
  deriving DecidableEq, Repr

/-- Mirrors AbnormalConditionType from api/v1/abnormal_types.go. -/
inductive AbnormalConditionType
  | informationCollected
  | identified
  | recovered
  deriving DecidableEq, Repr

/-- Mirrors metav1.Time, abstracted to an integer timestamp. -/
abbrev KubeTime := Int

/-- Mirrors NamespacedName from api/v1/abnormal_types.go.  The Go field
Namespace is rendered `ns` because `namespace` is a Lean keyword. -/
structure NamespacedName where
  ns : String
  name : String
  deriving DecidableEq, Repr

/-- Mirrors AbnormalCondition from api/v1/abnormal_types.go. -/
structure AbnormalCondition where
  type : AbnormalConditionType
  status : ConditionStatus
  lastTransitionTime : KubeTime
  reason : String
  message : String
  deriving DecidableEq, Repr

/-- A JSON value stored under one key of the context blob. -/
inductive CtxVal
  | null
  | bool (b : Bool)
  | num (n : Int)
  | str (s : String)
  deriving DecidableEq, Repr

/-- The raw bytes of a context blob: either bytes that decode to a JSON
object with the given entries in byte order, or bytes that are not valid
JSON. -/
inductive RawBlob
  | obj (entries : List (String × CtxVal))
  | corrupt
  deriving DecidableEq, Repr

/-- Mirrors runtime.RawExtension: `raw = none` models a nil or zero-length
Raw byte slice. -/
structure RawExtension where
  raw : Option RawBlob
  deriving DecidableEq, Repr

/-- Mirrors PodReference from api/v1/abnormal_types.go. -/
structure PodReference where
  ns : String
  name : String
  containerName : String
  deriving DecidableEq, Repr

/-- Mirrors GoProfilerSpec from api/v1/abnormal_types.go. -/
structure GoProfilerSpec where
  source : String
  deriving DecidableEq, Repr

/-- Mirrors JavaProfilerSpec from api/v1/abnormal_types.go. -/
structure JavaProfilerSpec where
  type : String
  hprofFilePath : String
  deriving DecidableEq, Repr

/-- Mirrors CommandExecutorSpec from api/v1/abnormal_types.go. -/
structure CommandExecutorSpec where
  command : List String
  type : AbnormalProcessorType
  timeoutSeconds : Int
  deriving DecidableEq, Repr

/-- Mirrors ProfilerSpec from api/v1/abnormal_types.go. -/
structure ProfilerSpec where
  name : String
  type : AbnormalProcessorType
  go : Option GoProfilerSpec
  java : Option JavaProfilerSpec
  timeoutSeconds : Int
  expirationSeconds : Int
  deriving DecidableEq, Repr

/-- Mirrors AbnormalSpec from api/v1/abnormal_types.go.  The Prometheus
alert and Kubernetes event payloads are external types and are kept as
opaque strings; note there is no skip-recovery field in this spec. -/
structure AbnormalSpec where
  source : String
  prometheusAlert : Option String
  kubernetesEvent : Option String
  nodeName : String
  podReference : Option PodReference
  assignedInformationCollectors : List NamespacedName
  assignedDiagnosers : List NamespacedName
  assignedRecoverers : List NamespacedName
  commandExecutors : List CommandExecutorSpec
  profilers : List ProfilerSpec
  context : Option RawExtension
  deriving DecidableEq, Repr

/-- Mirrors CommandExecutorStatus from api/v1/abnormal_types.go. -/
structure CommandExecutorStatus where
  command : List String
  type : AbnormalProcessorType
  stdout : String
  stderr : String
  error : String
  deriving DecidableEq, Repr

/-- Mirrors GoProfilerStatus from api/v1/abnormal_types.go. -/
structure GoProfilerStatus where
  endpoint : String
  deriving DecidableEq, Repr

/-- Mirrors JavaProfilerStatus: the two optional result endpoints. -/
structure JavaProfilerStatus where
  type : String
  arthas : Option String
  memoryAnalyzer : Option String
  deriving DecidableEq, Repr

/-- Mirrors ProfilerStatus from api/v1/abnormal_types.go. -/
structure ProfilerStatus where
  name : String
  type : AbnormalProcessorType
  go : Option GoProfilerStatus
  java : Option JavaProfilerStatus
  expired : Bool
  error : String
  deriving DecidableEq, Repr

/-- Mirrors AbnormalStatus from api/v1/abnormal_types.go. -/
structure AbnormalStatus where
  identifiable : Bool
  recoverable : Bool
  phase : AbnormalPhase
  conditions : List AbnormalCondition
  message : String
  reason : String
  startTime : KubeTime
  diagnoser : Option NamespacedName
  recoverer : Option NamespacedName
  commandExecutors : List CommandExecutorStatus
  profilers : List ProfilerStatus
  context : Option RawExtension
  deriving DecidableEq, Repr

/-- Mirrors Abnormal from api/v1/abnormal_types.go (object metadata reduced
to name, namespace and uid). -/
structure Abnormal where
  name : String
  ns : String
  uid : String
  spec : AbnormalSpec
  status : AbnormalStatus
  deriving DecidableEq, Repr

/-- Mirrors RecovererSpec (api/v1 recoverer type): endpoint coordinates and
the per-call timeout used by the recoverer chain. -/
structure RecovererSpec where
  ip : String
  port : Int
  path : String
  scheme : String
  timeoutSeconds : Int
  deriving DecidableEq, Repr

/-- Mirrors Recoverer (api/v1 recoverer type), metadata reduced to name and
namespace. -/
structure Recoverer where
  name : String
  ns : String
  spec : RecovererSpec
  deriving DecidableEq, Repr

/-- Modelled from the spec: util.GetAbnormalCondition (pkg/util/util.go is
absent from the sources); finds the condition entry with the given type, as
pinned by TestGetAbnormalCondition. -/
def findCondition (conditions : List AbnormalCondition) (t : AbnormalConditionType) :
    Option AbnormalCondition :=
  conditions.find? (fun c => decide (c.type = t))

/-- The condition entry written for `c` when a mutation occurs at time
`now`. -/
def freshCondition (now : KubeTime) (c : AbnormalCondition) : AbnormalCondition :=
  { type := c.type, status := c.status, lastTransitionTime := now,
    reason := c.reason, message := c.message }

/-- Modelled from the spec: the list part of util.UpdateAbnormalCondition
(pkg/util/util.go is absent from the sources).  Find the entry with the same
type; if its status is unchanged leave the list untouched and report no
mutation; if the status differs replace status, reason, message in place and
stamp `now`; if absent append a fresh entry stamped `now`. -/
def updateConditions (now : KubeTime) (c : AbnormalCondition) :
    List AbnormalCondition → List AbnormalCondition × Bool
  | [] => ([freshCondition now c], true)
  | old :: rest =>
    if old.type = c.type then
      if old.status = c.status then (old :: rest, false)
      else (freshCondition now c :: rest, true)
    else
      let r := updateConditions now c rest
      (old :: r.1, r.2)

/-- Modelled from the spec: util.UpdateAbnormalCondition (pkg/util/util.go
is absent from the sources); the boolean reports whether the status was
mutated, as pinned by TestUpdateAbnormalCondition. -/
def updateAbnormalCondition (now : KubeTime) (s : AbnormalStatus) (c : AbnormalCondition) :
    AbnormalStatus × Bool :=
  let r := updateConditions now c s.conditions
  ({ s with conditions := r.1 }, r.2)

/-- The condition fixture from TestUpdateAbnormalCondition. -/
def condInfoTrue : AbnormalCondition :=
  { type := .informationCollected, status := .isTrue, lastTransitionTime := 0,
    reason := "successfully", message := "sync abnormal successfully" }

/-- An abnormal status holding the single condition fixture. -/
def statusWithInfo : AbnormalStatus :=
  { identifiable := false, recoverable := false, phase := .diagnosing,
    conditions := [condInfoTrue], message := "", reason := "", startTime := 0,
    diagnoser := none, recoverer := none, commandExecutors := [],
    profilers := [], context := none }

/-- Insert key `k` with value `v` into a key-sorted association list,
overwriting an existing binding; mirrors one key update of a decoded Go map
followed by the deterministic sorted-key JSON serialization. -/
def insertSorted (k : String) (v : CtxVal) : List (String × CtxVal) → List (String × CtxVal)
  | [] => [(k, v)]
  | (k2, v2) :: rest =>
    if k < k2 then (k, v) :: (k2, v2) :: rest
    else if k = k2 then (k, v) :: rest
    else (k2, v2) :: insertSorted k v rest

/-- Decode raw JSON object entries into the map they denote: a later
occurrence of a key wins and the result is in sorted key order, mirroring
json.Unmarshal into a Go map followed by json.Marshal. -/
def mapOfEntries (es : List (String × CtxVal)) : List (String × CtxVal) :=
  es.foldl (fun m p => insertSorted p.1 p.2 m) []

/-- Look up the first binding of `k`. -/
def lookupKey (k : String) : List (String × CtxVal) → Option CtxVal
  | [] => none
  | (k2, v2) :: rest => if k = k2 then some v2 else lookupKey k rest

/-- Drop every binding of `k`, mirroring delete on a Go map. -/
def eraseKey (k : String) : List (String × CtxVal) → List (String × CtxVal)
  | [] => []
  | (k2, v2) :: rest => if k2 = k then eraseKey k rest else (k2, v2) :: eraseKey k rest

/-- A key-sorted, duplicate-free association list: the canonical form that
deterministic JSON serialization of a Go map produces. -/
def Canonical (m : List (String × CtxVal)) : Prop :=
  m.Pairwise (fun p q => p.1 < q.1)

/-- The error text for get on an Abnormal with no context at all, pinned by
TestGetAbnormalContext. -/
def ctxNilError : String := "abnormal context nil"

/-- The error text for get on a present-but-empty context, pinned by
TestGetAbnormalContext. -/
def ctxEmptyError : String := "abnormal context empty"

/-- The modelled JSON decode-failure text surfaced when the stored context
bytes are not valid JSON. -/
def jsonDecodeError : String := "invalid context JSON"

/-- Modelled from the spec: util.GetAbnormalContext (pkg/util/util.go is
absent from the sources).  A nil context and a present-but-empty context
fail with distinct errors, corrupt bytes surface a decode error, and an
absent key is not an error; pinned by TestGetAbnormalContext. -/
def getAbnormalContext (a : Abnormal) (key : String) : Except String CtxVal :=
  match a.status.context with
  | none => .error ctxNilError
  | some ⟨none⟩ => .error ctxEmptyError
  | some ⟨some .corrupt⟩ => .error jsonDecodeError
  | some ⟨some (.obj es)⟩ =>
    match lookupKey key (mapOfEntries es) with
    | some v => .ok v
    | none => .ok .null

/-- Modelled from the spec: util.SetAbnormalContext (pkg/util/util.go is
absent from the sources).  Upserts one key over the decoded map (a nil or
empty blob decoding to the empty map) and re-serializes deterministically;
corrupt bytes fail with the decode error; pinned by TestSetAbnormalContext. -/
def setAbnormalContext (a : Abnormal) (key : String) (v : CtxVal) : Except String Abnormal :=
  match a.status.context with
  | some ⟨some .corrupt⟩ => .error jsonDecodeError
  | some ⟨some (.obj es)⟩ =>
    .ok { a with status := { a.status with
      context := some ⟨some (.obj (insertSorted key v (mapOfEntries es)))⟩ } }
  | _ =>
    .ok { a with status := { a.status with
      context := some ⟨some (.obj [(key, v)])⟩ } }

/-- Modelled from the spec: util.RemoveAbnormalContext (pkg/util/util.go is
absent from the sources), returning the updated abnormal, the removed flag
and an optional error.  A nil or empty blob is a no-op success; corrupt
bytes fail without mutating; otherwise the key is deleted from the decoded
map; pinned by TestRemoveAbnormalContext. -/
def removeAbnormalContext (a : Abnormal) (key : String) : Abnormal × Bool × Option String :=
  match a.status.context with
  | none => (a, true, none)
  | some ⟨none⟩ => (a, true, none)
  | some ⟨some .corrupt⟩ => (a, false, some jsonDecodeError)
  | some ⟨some (.obj es)⟩ =>
    ({ a with status := { a.status with
        context := some ⟨some (.obj (eraseKey key (mapOfEntries es)))⟩ } }, true, none)

/-- A minimal abnormal spec for concrete instances. -/
def baseSpec : AbnormalSpec :=
  { source := "Custom", prometheusAlert := none, kubernetesEvent := none,
    nodeName := "", podReference := none, assignedInformationCollectors := [],
    assignedDiagnosers := [], assignedRecoverers := [], commandExecutors := [],
    profilers := [], context := none }

/-- A concrete abnormal with no context at all. -/
def abnormalNilCtx : Abnormal :=
  { name := "abnormal1", ns := "default", uid := "u1",
    spec := baseSpec, status := statusWithInfo }

/-- A concrete abnormal with a present-but-empty context. -/
def abnormalEmptyCtx : Abnormal :=
  { abnormalNilCtx with status := { statusWithInfo with context := some ⟨none⟩ } }

/-- A concrete abnormal whose context bytes are not valid JSON. -/
def abnormalCorruptCtx : Abnormal :=
  { abnormalNilCtx with status := { statusWithInfo with context := some ⟨some .corrupt⟩ } }

/-- The two-key context fixture from the context accessor tests. -/
def objEntries : List (String × CtxVal) :=
  [("key1", .str "value1"), ("key2", .str "value2")]

/-- A concrete abnormal carrying the two-key context fixture. -/
def abnormalObjCtx : Abnormal :=
  { abnormalNilCtx with status := { statusWithInfo with
      context := some ⟨some (.obj objEntries)⟩ } }

/-- The spec comparison error string pinned by TestValidateAbnormalResult;
unlike the status fields it spells "field". -/
def specFieldError : String := "spec field of Abnormal must not be modified"

/-- Status-field error strings pinned by TestValidateAbnormalResult; the
source spells "filed" in each of them. -/
def identifiableFieldError : String := "identifiable filed of Abnormal must not be modified"

def recoverableFieldError : String := "recoverable filed of Abnormal must not be modified"

def phaseFieldError : String := "phase filed of Abnormal must not be modified"

def conditionsFieldError : String := "conditions filed of Abnormal must not be modified"

def messageFieldError : String := "message filed of Abnormal must not be modified"

def reasonFieldError : String := "reason filed of Abnormal must not be modified"

def startTimeFieldError : String := "startTime filed of Abnormal must not be modified"

def diagnoserFieldError : String := "diagnoser filed of Abnormal must not be modified"

def recovererFieldError : String := "recoverer filed of Abnormal must not be modified"

/-- Modelled from the spec: util.ValidateAbnormalResult (pkg/util/util.go is
absent from the sources).  Compares the protected fields of the processor
result against the pre-call abnormal in the order the tests exercise and
rejects at the first difference with that field's error string; the exact
strings are pinned by TestValidateAbnormalResult. -/
def validateAbnormalResult (result current : Abnormal) : Except String Unit :=
  if result.spec ≠ current.spec then .error specFieldError
  else if result.status.identifiable ≠ current.status.identifiable then
    .error identifiableFieldError
  else if result.status.recoverable ≠ current.status.recoverable then
    .error recoverableFieldError
  else if result.status.phase ≠ current.status.phase then .error phaseFieldError
  else if result.status.conditions ≠ current.status.conditions then
    .error conditionsFieldError
  else if result.status.message ≠ current.status.message then .error messageFieldError
  else if result.status.reason ≠ current.status.reason then .error reasonFieldError
  else if result.status.startTime ≠ current.status.startTime then
    .error startTimeFieldError
  else if result.status.diagnoser ≠ current.status.diagnoser then
    .error diagnoserFieldError
  else if result.status.recoverer ≠ current.status.recoverer then
    .error recovererFieldError
  else .ok ()

/-- The error strings of all violated protected-field checks, in check
order. -/
def protectedViolations (result current : Abnormal) : List String :=
  (if result.spec ≠ current.spec then [specFieldError] else []) ++
  (if result.status.identifiable ≠ current.status.identifiable then
    [identifiableFieldError] else []) ++
  (if result.status.recoverable ≠ current.status.recoverable then
    [recoverableFieldError] else []) ++
  (if result.status.phase ≠ current.status.phase then [phaseFieldError] else []) ++
  (if result.status.conditions ≠ current.status.conditions then
    [conditionsFieldError] else []) ++
  (if result.status.message ≠ current.status.message then [messageFieldError] else []) ++
  (if result.status.reason ≠ current.status.reason then [reasonFieldError] else []) ++
  (if result.status.startTime ≠ current.status.startTime then
    [startTimeFieldError] else []) ++
  (if result.status.diagnoser ≠ current.status.diagnoser then
    [diagnoserFieldError] else []) ++
  (if result.status.recoverer ≠ current.status.recoverer then
    [recovererFieldError] else [])

/-- Dispatch environment for one engine pass: the wall-clock time used for
condition stamps, the embedded runner results, and the HTTP exchange result
for each recoverer (`none` when the request or the response decode fails). -/
structure RecoveryEnv where
  now : KubeTime
  execute : CommandExecutorSpec → CommandExecutorStatus
  profile : ProfilerSpec → ProfilerStatus
  dispatch : Recoverer → Option Abnormal

/-- From runRecovery (recovererchain.go lines 282 to 298): run every command
executor of Recoverer type in spec order, appending one status entry per
executor, success and failure alike. -/
def runExecutorsStep (env : RecoveryEnv) (a : Abnormal) : Abnormal :=
  { a with status := { a.status with commandExecutors :=
      a.status.commandExecutors ++
        ((a.spec.commandExecutors.filter
          (fun e => decide (e.type = .recoverer))).map env.execute) } }

/-- From runRecovery (recovererchain.go lines 300 to 316): run every
profiler of Recoverer type in spec order, appending one status entry each. -/
def runProfilersStep (env : RecoveryEnv) (a : Abnormal) : Abnormal :=
  { a with status := { a.status with profilers :=
      a.status.profilers ++
        ((a.spec.profilers.filter
          (fun p => decide (p.type = .recoverer))).map env.profile) } }

/-- From setAbnormalSucceeded (recovererchain.go lines 427 to 446): phase to
Succeeded, Recoverable true, Recovered condition True. -/
def setAbnormalSucceeded (now : KubeTime) (a : Abnormal) : Abnormal :=
  let s1 := { a.status with phase := .succeeded, recoverable := true }
  { a with status := (updateAbnormalCondition now s1
      { type := .recovered, status := .isTrue, lastTransitionTime := 0,
        reason := "", message := "" }).1 }

/-- From setAbnormalFailed (recovererchain.go lines 448 to 469): phase to
Failed, Recoverable false, Recovered condition False. -/
def setAbnormalFailed (now : KubeTime) (a : Abnormal) : Abnormal :=
  let s1 := { a.status with phase := .failed, recoverable := false }
  { a with status := (updateAbnormalCondition now s1
      { type := .recovered, status := .isFalse, lastTransitionTime := 0,
        reason := "", message := "" }).1 }

/-- From runRecovery (recovererchain.go lines 337 to 350): a recoverer is
matched when its name and namespace appear in the assigned list. -/
def eligibleB (a : Abnormal) (r : Recoverer) : Bool :=
  a.spec.assignedRecoverers.any
    (fun ar => decide (r.name = ar.name) && decide (r.ns = ar.ns))

/-- From runRecovery (recovererchain.go lines 335 to 415): iterate the
catalog in order, skip unmatched recoverers, skip on request or validation
failure, and at the first validated response adopt its status, set the
recoverer identity and mark succeeded; exhaustion marks failed. -/
def recoverLoop (env : RecoveryEnv) (a : Abnormal) : List Recoverer → Abnormal
  | [] => setAbnormalFailed env.now a
  | r :: rest =>
    if eligibleB a r then
      match env.dispatch r with
      | none => recoverLoop env a rest
      | some result =>
        match validateAbnormalResult result a with
        | .error _ => recoverLoop env a rest
        | .ok _ =>
          setAbnormalSucceeded env.now
            { a with status := { result.status with recoverer := some ⟨r.ns, r.name⟩ } }
    else recoverLoop env a rest

/-- The identities of the recoverers to which `recoverLoop` sends an HTTP
request, in order. -/
def dispatchTrace (env : RecoveryEnv) (a : Abnormal) : List Recoverer → List NamespacedName
  | [] => []
  | r :: rest =>
    if eligibleB a r then
      ⟨r.ns, r.name⟩ ::
        (match env.dispatch r with
         | none => dispatchTrace env a rest
         | some result =>
           match validateAbnormalResult result a with
           | .error _ => dispatchTrace env a rest
           | .ok _ => [])
    else dispatchTrace env a rest

/-- From runRecovery (recovererchain.go lines 281 to 425): embedded runs
first, then the empty-assigned-list skip to succeeded, then the catalog
loop. -/
def runRecovery (env : RecoveryEnv) (recoverers : List Recoverer) (abnormal : Abnormal) :
    Abnormal :=
  let a2 := runProfilersStep env (runExecutorsStep env abnormal)
  if a2.spec.assignedRecoverers.isEmpty then setAbnormalSucceeded env.now a2
  else recoverLoop env a2 recoverers

/-- The identities of the recoverers to which runRecovery sends an HTTP
request, in order. -/
def runRecoveryDispatches (env : RecoveryEnv) (recoverers : List Recoverer)
    (abnormal : Abnormal) : List NamespacedName :=
  let a2 := runProfilersStep env (runExecutorsStep env abnormal)
  if a2.spec.assignedRecoverers.isEmpty then []
  else dispatchTrace env a2 recoverers

/-- The abnormal after both embedded steps of runRecovery, before any HTTP
dispatch: the pre-dispatch state. -/
def runEmbedded (env : RecoveryEnv) (a : Abnormal) : Abnormal :=
  runProfilersStep env (runExecutorsStep env a)

/-- A catalog entry succeeds when it is matched, its dispatch returns a
response, and the response validates against the pre-call abnormal. -/
def succeedsB (env : RecoveryEnv) (a : Abnormal) (r : Recoverer) : Bool :=
  eligibleB a r &&
    (match env.dispatch r with
     | none => false
     | some result =>
       match validateAbnormalResult result a with
       | .error _ => false
       | .ok _ => true)

/-- Modelled from the spec: util.IsAbnormalNodeNameMatched
(pkg/util/util.go is absent from the sources): an empty spec node name
matches any node, otherwise the names must be identical; pinned by
TestIsAbnormalNodeNameMatched. -/
def isAbnormalNodeNameMatched (a : Abnormal) (nodeName : String) : Bool :=
  decide (a.spec.nodeName = "") || decide (a.spec.nodeName = nodeName)

/-- The outcome of re-fetching a dequeued abnormal by identity. -/
inductive FetchOutcome
  | notFound
  | fetchError
  | fetched (a : Abnormal)
  deriving DecidableEq, Repr

/-- What the consumer loop does with one dequeued work item. -/
inductive RunAction
  | drop
  | requeue
  | sync (a : Abnormal)
  deriving DecidableEq, Repr

/-- From Run (recovererchain.go lines 172 to 215): drop on not-found,
requeue on any other fetch error, drop when the live phase is not
Recovering, sync only when the node-affinity filter passes, otherwise
drop. -/
def runStep (nodeName : String) : FetchOutcome → RunAction
  | .notFound => .drop
  | .fetchError => .requeue
  | .fetched a =>
    if a.status.phase ≠ AbnormalPhase.recovering then .drop
    else if isAbnormalNodeNameMatched a nodeName then .sync a
    else .drop

/-- From runRecovery (recovererchain.go lines 369 to 374): the HTTP client
is built with timeout TimeoutSeconds seconds. -/
def recovererClientTimeoutSeconds (r : Recoverer) : Int :=
  r.spec.timeoutSeconds

/-- Modelled from the spec: the Recoverer resource schema (the api recoverer
type file is absent from the sources) declares timeoutSeconds as defaulting
to 30 when unspecified; admission therefore stores the declared value, or
30 when the field is omitted. -/
def defaultedTimeoutSeconds (declared : Option Int) : Int :=
  match declared with
  | none => 30
  | some t => t

/-- Modelled from the spec: the schema minimum-value constraint on a
declared timeout (minimum value is 1). -/
def TimeoutDeclarationValid (declared : Option Int) : Prop :=
  ∀ t, declared = some t → 1 ≤ t

/-- Mirrors the legacy abnormal spec generation read by RunRecovery
(part_000): it carries a SkipRecovery flag; only fields the legacy engine
reads are modelled, its api type file being absent from the sources. -/
structure LegacySpec where
  nodeName : String
  skipRecovery : Bool
  assignedRecoverers : List NamespacedName
  deriving DecidableEq, Repr

/-- The legacy status fields read or written by the legacy engine; the
recoverer identity is a plain value in this generation (part_000 line
286). -/
structure LegacyStatus where
  identifiable : Bool
  recoverable : Bool
  phase : AbnormalPhase
  conditions : List AbnormalCondition
  message : String
  reason : String
  startTime : KubeTime
  recoverer : NamespacedName
  deriving DecidableEq, Repr

/-- The legacy abnormal generation processed by part_000. -/
structure LegacyAbnormal where
  name : String
  ns : String
  spec : LegacySpec
  status : LegacyStatus
  deriving DecidableEq, Repr

/-- Modelled from the spec: util.ValidateAbnormalResult as applied by the
legacy engine to its own abnormal generation, over the legacy fields. -/
def legacyValidate (result current : LegacyAbnormal) : Except String Unit :=
  if result.spec ≠ current.spec then .error specFieldError
  else if result.status.identifiable ≠ current.status.identifiable then
    .error identifiableFieldError
  else if result.status.recoverable ≠ current.status.recoverable then
    .error recoverableFieldError
  else if result.status.phase ≠ current.status.phase then .error phaseFieldError
  else if result.status.conditions ≠ current.status.conditions then
    .error conditionsFieldError
  else if result.status.message ≠ current.status.message then .error messageFieldError
  else if result.status.reason ≠ current.status.reason then .error reasonFieldError
  else if result.status.startTime ≠ current.status.startTime then
    .error startTimeFieldError
  else if result.status.recoverer ≠ current.status.recoverer then
    .error recovererFieldError
  else .ok ()

/-- From SetAbnormalSucceeded (part_000 lines 307 to 325). -/
def legacySetAbnormalSucceeded (now : KubeTime) (a : LegacyAbnormal) : LegacyAbnormal :=
  let s1 := { a.status with phase := .succeeded, recoverable := true }
  { a with status := { s1 with conditions :=
      (updateConditions now
        { type := .recovered, status := .isTrue, lastTransitionTime := 0,
          reason := "", message := "" } s1.conditions).1 } }

/-- From SetAbnormalFailed (part_000 lines 327 to 346). -/
def legacySetAbnormalFailed (now : KubeTime) (a : LegacyAbnormal) : LegacyAbnormal :=
  let s1 := { a.status with phase := .failed, recoverable := false }
  { a with status := { s1 with conditions :=
      (updateConditions now
        { type := .recovered, status := .isFalse, lastTransitionTime := 0,
          reason := "", message := "" } s1.conditions).1 } }

/-- Dispatch environment of the legacy engine. -/
structure LegacyEnv where
  now : KubeTime
  dispatch : Recoverer → Option LegacyAbnormal

/-- From RunRecovery (part_000 lines 233 to 248): with an empty assigned
list every recoverer is matched; otherwise only listed ones. -/
def legacyEligibleB (a : LegacyAbnormal) (r : Recoverer) : Bool :=
  a.spec.assignedRecoverers.isEmpty ||
    a.spec.assignedRecoverers.any
      (fun ar => decide (r.name = ar.name) && decide (r.ns = ar.ns))

/-- From RunRecovery (part_000 lines 232 to 296): the legacy catalog loop;
on the first validated response it sets only the recoverer identity (the
legacy engine does not adopt the response status) and marks succeeded. -/
def legacyRecoverLoop (env : LegacyEnv) (a : LegacyAbnormal) :
    List Recoverer → LegacyAbnormal
  | [] => legacySetAbnormalFailed env.now a
  | r :: rest =>
    if legacyEligibleB a r then
      match env.dispatch r with
      | none => legacyRecoverLoop env a rest
      | some result =>
        match legacyValidate result a with
        | .error _ => legacyRecoverLoop env a rest
        | .ok _ =>
          legacySetAbnormalSucceeded env.now
            { a with status := { a.status with recoverer := ⟨r.ns, r.name⟩ } }
    else legacyRecoverLoop env a rest

/-- The identities of the recoverers the legacy loop sends requests to. -/
def legacyDispatchTrace (env : LegacyEnv) (a : LegacyAbnormal) :
    List Recoverer → List NamespacedName
  | [] => []
  | r :: rest =>
    if legacyEligibleB a r then
      ⟨r.ns, r.name⟩ ::
        (match env.dispatch r with
         | none => legacyDispatchTrace env a rest
         | some result =>
           match legacyValidate result a with
           | .error _ => legacyDispatchTrace env a rest
           | .ok _ => [])
    else legacyDispatchTrace env a rest

/-- From RunRecovery (part_000 lines 217 to 304): only the SkipRecovery flag
short-circuits to success in the legacy engine. -/
def legacyRunRecovery (env : LegacyEnv) (recoverers : List Recoverer)
    (a : LegacyAbnormal) : LegacyAbnormal :=
  if a.spec.skipRecovery then legacySetAbnormalSucceeded env.now a
  else legacyRecoverLoop env a recoverers

/-- The identities of the recoverers to which the legacy RunRecovery sends
an HTTP request, in order. -/
def legacyRunRecoveryDispatches (env : LegacyEnv) (recoverers : List Recoverer)
    (a : LegacyAbnormal) : List NamespacedName :=
  if a.spec.skipRecovery then []
  else legacyDispatchTrace env a recoverers

/-- A concrete recoverer catalog entry. -/
def recoverer1 : Recoverer :=
  { name := "recoverer1", ns := "default",
    spec := { ip := "127.0.0.1", port := 8090, path := "/recoverer",
              scheme := "http", timeoutSeconds := 30 } }

/-- A second concrete recoverer catalog entry. -/
def recoverer2 : Recoverer :=
  { name := "recoverer2", ns := "default",
    spec := { ip := "127.0.0.2", port := 8090, path := "/recoverer",
              scheme := "http", timeoutSeconds := 30 } }

/-- A concrete recovering abnormal assigned to recoverer2 only. -/
def abnormalAssigned : Abnormal :=
  { name := "abnormal1", ns := "default", uid := "u1",
    spec := { baseSpec with assignedRecoverers := [⟨"default", "recoverer2"⟩] },
    status := { statusWithInfo with phase := .recovering } }

/-- A concrete recovering abnormal with an empty assigned-recoverer list. -/
def abnormalUnassigned : Abnormal :=
  { name := "abnormal2", ns := "default", uid := "u2",
    spec := baseSpec,
    status := { statusWithInfo with phase := .recovering } }

/-- A concrete environment in which recoverer2 answers with the unchanged
abnormal and every other recoverer is unreachable. -/
def envOk : RecoveryEnv :=
  { now := 5,
    execute := fun e =>
      { command := e.command, type := e.type, stdout := "", stderr := "", error := "" },
    profile := fun p =>
      { name := p.name, type := p.type, go := none, java := none,
        expired := false, error := "" },
    dispatch := fun r =>
      if r.name = "recoverer2" && r.ns = "default" then some abnormalAssigned else none }

/-- A concrete environment in which every dispatch fails. -/
def envDown : RecoveryEnv :=
  { envOk with dispatch := fun _ => none }

/-- A concrete legacy abnormal with the skip flag clear and an empty
assigned list. -/
def legacyAbnormalEmptyAssigned : LegacyAbnormal :=
  { name := "abnormal1", ns := "default",
    spec := { nodeName := "", skipRecovery := false, assignedRecoverers := [] },
    status := { identifiable := false, recoverable := false, phase := .recovering,
                conditions := [], message := "", reason := "", startTime := 0,
                recoverer := ⟨"", ""⟩ } }

/-- The same legacy abnormal with the skip flag set. -/
def legacyAbnormalSkip : LegacyAbnormal :=
  { legacyAbnormalEmptyAssigned with
      spec := { legacyAbnormalEmptyAssigned.spec with skipRecovery := true } }

/-- A concrete legacy environment echoing the legacy abnormal back. -/
def legacyEnvEcho : LegacyEnv :=
  { now := 5, dispatch := fun _ => some legacyAbnormalEmptyAssigned }

deriving instance DecidableEq for Except

theorem updateConditions_found_same (now : KubeTime) (c : AbnormalCondition)
    (l : List AbnormalCondition) (old : AbnormalCondition)
    (hfind : findCondition l c.type = some old) (hstat : old.status = c.status) :
    updateConditions now c l = (l, false) := by
  induction l with
  | nil => simp [findCondition] at hfind
  | cons hd tl ih =>
    by_cases hty : hd.type = c.type
    · have : hd = old := by
        simpa [findCondition, List.find?_cons, hty] using hfind
      subst this
      simp [updateConditions, hty, hstat]
    · have hfind' : findCondition tl c.type = some old := by
        simpa [findCondition, List.find?_cons, hty] using hfind
      have := ih hfind'
      simp [updateConditions, hty, this]

theorem updateConditions_found_ne (now : KubeTime) (c : AbnormalCondition)
    (l : List AbnormalCondition) (old : AbnormalCondition)
    (hfind : findCondition l c.type = some old) (hstat : old.status ≠ c.status) :
    (updateConditions now c l).2 = true ∧
      ∃ pre post, l = pre ++ old :: post ∧ (∀ x ∈ pre, x.type ≠ c.type) ∧
        (updateConditions now c l).1 = pre ++ freshCondition now c :: post := by
  induction l with
  | nil => simp [findCondition] at hfind
  | cons hd tl ih =>
    by_cases hty : hd.type = c.type
    · have : hd = old := by
        simpa [findCondition, List.find?_cons, hty] using hfind
      subst this
      refine ⟨?_, [], tl, by simp, by simp, ?_⟩ <;>
        simp [updateConditions, hty, fun h => hstat (h : hd.status = c.status)]
    · have hfind' : findCondition tl c.type = some old := by
        simpa [findCondition, List.find?_cons, hty] using hfind
      obtain ⟨hb, pre, post, hsplit, hpre, hres⟩ := ih hfind'
      refine ⟨by simp [updateConditions, hty, hb], hd :: pre, post, by simp [hsplit], ?_, ?_⟩
      · intro x hx
        rcases List.mem_cons.mp hx with h | h
        · simpa [h] using hty
        · exact hpre x h
      · simp [updateConditions, hty, hres]

theorem updateConditions_absent (now : KubeTime) (c : AbnormalCondition)
    (l : List AbnormalCondition) (hfind : findCondition l c.type = none) :
    updateConditions now c l = (l ++ [freshCondition now c], true) := by
  induction l with
  | nil => simp [updateConditions]
  | cons hd tl ih =>
    by_cases hty : hd.type = c.type
    · simp [findCondition, List.find?_cons, hty] at hfind
    · have hfind' : findCondition tl c.type = none := by
        simpa [findCondition, List.find?_cons, hty] using hfind
      simp [updateConditions, hty, ih hfind']

theorem updateConditions_mutation_iff (now : KubeTime) (c : AbnormalCondition)
    (l : List AbnormalCondition) :
    (updateConditions now c l).2 = false ↔ (updateConditions now c l).1 = l := by
  induction l with
  | nil => simp [updateConditions]
  | cons hd tl ih =>
    by_cases hty : hd.type = c.type
    · by_cases hstat : hd.status = c.status
      · simp [updateConditions, hty, hstat]
      · have hne : freshCondition now c ≠ hd := by
          intro h
          exact hstat (by simpa [freshCondition] using congrArg AbnormalCondition.status h.symm)

        simp [updateConditions, hty, hstat, hne]
    · simpa [updateConditions, hty] using ih

/-- Claim C5: the condition-update operation finds the existing entry by
type; same type and same status is a no-op returning false (leaving
lastTransitionTime untouched); same type with a different status replaces
status, reason and message in place returning true; an absent type appends
a fresh entry returning true; and the boolean reports exactly whether a
mutation occurred. -/
theorem claim_C5 (now : KubeTime) (s : AbnormalStatus) (c : AbnormalCondition) :
    (∀ old, findCondition s.conditions c.type = some old → old.status = c.status →
        updateAbnormalCondition now s c = (s, false)) ∧
    (∀ old, findCondition s.conditions c.type = some old → old.status ≠ c.status →
        (updateAbnormalCondition now s c).2 = true ∧
        ∃ pre post, s.conditions = pre ++ old :: post ∧ (∀ x ∈ pre, x.type ≠ c.type) ∧
          (updateAbnormalCondition now s c).1 =
            { s with conditions := pre ++ freshCondition now c :: post }) ∧
    (findCondition s.conditions c.type = none →
        updateAbnormalCondition now s c =
          ({ s with conditions := s.conditions ++ [freshCondition now c] }, true)) ∧
    ((updateAbnormalCondition now s c).2 = false ↔ (updateAbnormalCondition now s c).1 = s) := by
  refine ⟨?_, ?_, ?_, ?_⟩
  · intro old hf hs
    simp [updateAbnormalCondition, updateConditions_found_same now c s.conditions old hf hs]
  · intro old hf hs
    obtain ⟨hb, pre, post, hsplit, hpre, hres⟩ :=
      updateConditions_found_ne now c s.conditions old hf hs
    exact ⟨by simp [updateAbnormalCondition, hb], pre, post, hsplit, hpre,
      by simp [updateAbnormalCondition, hres]⟩
  · intro hf
    simp [updateAbnormalCondition, updateConditions_absent now c s.conditions hf]
  · constructor
    · intro h
      have hl := (updateConditions_mutation_iff now c s.conditions).mp
        (by simpa [updateAbnormalCondition] using h)
      simp [updateAbnormalCondition, hl]
    · intro h
      have hcond : (updateConditions now c s.conditions).1 = s.conditions := by
        simpa [updateAbnormalCondition] using congrArg AbnormalStatus.conditions h
      simpa [updateAbnormalCondition] using
        (updateConditions_mutation_iff now c s.conditions).mpr hcond

theorem claim_C5_witness :
    updateAbnormalCondition 7 statusWithInfo condInfoTrue = (statusWithInfo, false) ∧
    (updateAbnormalCondition 7 statusWithInfo { condInfoTrue with status := .isFalse }).2 = true ∧
    updateAbnormalCondition 7 statusWithInfo { condInfoTrue with type := .identified } =
      ({ statusWithInfo with conditions :=
          statusWithInfo.conditions ++ [freshCondition 7 { condInfoTrue with type := .identified }] },
        true) :=
  ⟨(claim_C5 7 statusWithInfo condInfoTrue).1 condInfoTrue (by decide) (by decide),
   ((claim_C5 7 statusWithInfo { condInfoTrue with status := .isFalse }).2.1 condInfoTrue
      (by decide) (by decide)).1,
   (claim_C5 7 statusWithInfo { condInfoTrue with type := .identified }).2.2.1 (by decide)⟩

theorem mem_insertSorted (k : String) (v : CtxVal) (m : List (String × CtxVal))
    (p : String × CtxVal) (hp : p ∈ insertSorted k v m) : p = (k, v) ∨ p ∈ m := by
  induction m with
  | nil => simpa [insertSorted] using hp
  | cons hd tl ih =>
    obtain ⟨k2, v2⟩ := hd
    by_cases h1 : k < k2
    · simp only [insertSorted, if_pos h1, List.mem_cons] at hp
      simp only [List.mem_cons]
      tauto
    · by_cases h2 : k = k2
      · simp only [insertSorted, if_neg h1, if_pos h2, List.mem_cons] at hp
        simp only [List.mem_cons]
        tauto
      · simp only [insertSorted, if_neg h1, if_neg h2, List.mem_cons] at hp
        rcases hp with h | h
        · simp [h]
        · rcases ih h with h3 | h3
          · exact Or.inl h3
          · simp [h3]

theorem canonical_insertSorted (k : String) (v : CtxVal) (m : List (String × CtxVal))
    (h : Canonical m) : Canonical (insertSorted k v m) := by
  induction m with
  | nil => simp [insertSorted, Canonical]
  | cons hd tl ih =>
    obtain ⟨k2, v2⟩ := hd
    rw [Canonical, List.pairwise_cons] at h
    obtain ⟨hhd, htl⟩ := h
    by_cases h1 : k < k2
    · rw [Canonical]
      simp only [insertSorted, if_pos h1]
      refine List.Pairwise.cons ?_ (List.Pairwise.cons hhd htl)
      intro q hq
      rcases List.mem_cons.mp hq with rfl | hq
      · exact h1
      · exact lt_trans h1 (hhd q hq)
    · by_cases h2 : k = k2
      · subst h2
        rw [Canonical]
        simp only [insertSorted, if_neg h1, if_pos rfl]
        exact List.Pairwise.cons hhd htl
      · have h3 : k2 < k := by
          rcases lt_trichotomy k k2 with h | h | h
          · exact absurd h h1
          · exact absurd h h2
          · exact h
        rw [Canonical]
        simp only [insertSorted, if_neg h1, if_neg h2]
        refine List.Pairwise.cons ?_ (ih htl)
        intro q hq
        rcases mem_insertSorted k v tl q hq with rfl | hq
        · exact h3
        · exact hhd q hq

theorem insertSorted_append_of_lt (k : String) (v : CtxVal) (m : List (String × CtxVal))
    (h : ∀ p ∈ m, p.1 < k) : insertSorted k v m = m ++ [(k, v)] := by
  induction m with
  | nil => simp [insertSorted]
  | cons hd tl ih =>
    obtain ⟨k2, v2⟩ := hd
    have hk2 : k2 < k := h (k2, v2) (by simp)
    have h1 : ¬ k < k2 := not_lt_of_gt hk2
    simp only [insertSorted, if_neg h1, if_neg (ne_of_gt hk2)]
    rw [ih (fun p hp => h p (by simp [hp]))]
    simp

theorem foldl_ins_eq_append (m acc : List (String × CtxVal)) (h : Canonical (acc ++ m)) :
    m.foldl (fun m p => insertSorted p.1 p.2 m) acc = acc ++ m := by
  induction m generalizing acc with
  | nil => simp
  | cons hd tl ih =>
    have hacc : ∀ p ∈ acc, p.1 < hd.1 := by
      rw [Canonical, List.pairwise_append] at h
      exact fun p hp => h.2.2 p hp hd (by simp)
    rw [List.foldl_cons, insertSorted_append_of_lt hd.1 hd.2 acc hacc,
      ih (acc ++ [hd]) (by simpa using h)]
    simp

theorem mapOf_eq_of_canonical (m : List (String × CtxVal)) (h : Canonical m) :
    mapOfEntries m = m := by
  simpa [mapOfEntries] using foldl_ins_eq_append m [] (by simpa using h)

theorem canonical_foldl (m acc : List (String × CtxVal)) (h : Canonical acc) :
    Canonical (m.foldl (fun m p => insertSorted p.1 p.2 m) acc) := by
  induction m generalizing acc with
  | nil => simpa
  | cons hd tl ih => exact ih _ (canonical_insertSorted hd.1 hd.2 acc h)

theorem canonical_mapOf (es : List (String × CtxVal)) : Canonical (mapOfEntries es) :=
  canonical_foldl es [] (by simp [Canonical])

theorem lookup_insertSorted_self (k : String) (v : CtxVal) (m : List (String × CtxVal)) :
    lookupKey k (insertSorted k v m) = some v := by
  induction m with
  | nil => simp [insertSorted, lookupKey]
  | cons hd tl ih =>
    obtain ⟨k2, v2⟩ := hd
    by_cases h1 : k < k2
    · simp [insertSorted, h1, lookupKey]
    · by_cases h2 : k = k2
      · simp [insertSorted, h1, h2, lookupKey]
      · simp [insertSorted, h1, h2, lookupKey, ih]

theorem lookup_insertSorted_ne (k : String) (v : CtxVal) (m : List (String × CtxVal))
    (k2 : String) (h : k2 ≠ k) :
    lookupKey k2 (insertSorted k v m) = lookupKey k2 m := by
  induction m with
  | nil => simp [insertSorted, lookupKey, h]
  | cons hd tl ih =>
    obtain ⟨k3, v3⟩ := hd
    by_cases h1 : k < k3
    · simp [insertSorted, h1, lookupKey, h]
    · by_cases h3 : k = k3
      · subst h3
        simp [insertSorted, h1, lookupKey, h]
      · simp [insertSorted, h1, h3, lookupKey, ih]

theorem lookup_eraseKey_self (k : String) (m : List (String × CtxVal)) :
    lookupKey k (eraseKey k m) = none := by
  induction m with
  | nil => simp [eraseKey, lookupKey]
  | cons hd tl ih =>
    obtain ⟨k2, v2⟩ := hd
    by_cases h : k2 = k
    · simp [eraseKey, h, ih]
    · have h2 : ¬ k = k2 := fun hc => h hc.symm
      simp [eraseKey, h, lookupKey, h2, ih]

theorem lookup_eraseKey_ne (k : String) (m : List (String × CtxVal)) (k2 : String)
    (h : k2 ≠ k) : lookupKey k2 (eraseKey k m) = lookupKey k2 m := by
  induction m with
  | nil => simp [eraseKey]
  | cons hd tl ih =>
    obtain ⟨k3, v3⟩ := hd
    by_cases h3 : k3 = k
    · subst h3
      simp [eraseKey, lookupKey, h, ih]
    · by_cases h4 : k2 = k3
      · simp [eraseKey, h3, lookupKey, h4]
      · simp [eraseKey, h3, lookupKey, h4, ih]

theorem get_after_set_obj (a : Abnormal) (k : String) (v : CtxVal)
    (es : List (String × CtxVal)) :
    getAbnormalContext { a with status := { a.status with
      context := some ⟨some (.obj (insertSorted k v (mapOfEntries es)))⟩ } } k = .ok v := by
  have hcan : Canonical (insertSorted k v (mapOfEntries es)) :=
    canonical_insertSorted k v _ (canonical_mapOf es)
  simp [getAbnormalContext, mapOf_eq_of_canonical _ hcan, lookup_insertSorted_self]

/-- Claim C6: the context accessor distinguishes its failure modes: get on
an abnormal with no context fails with the nil-context error, get on a
present-but-empty context fails with the distinct empty-context error,
remove on a nil or empty context is a no-op success, and remove on bytes
that are not valid JSON fails with a decode error leaving the abnormal (and
its context bytes) unchanged. -/
theorem claim_C6 :
    (∀ a k, a.status.context = none → getAbnormalContext a k = .error ctxNilError) ∧
    (∀ a k, a.status.context = some ⟨none⟩ → getAbnormalContext a k = .error ctxEmptyError) ∧
    ctxNilError ≠ ctxEmptyError ∧
    (∀ a k, a.status.context = none ∨ a.status.context = some ⟨none⟩ →
      removeAbnormalContext a k = (a, true, none)) ∧
    (∀ a k, a.status.context = some ⟨some RawBlob.corrupt⟩ →
      removeAbnormalContext a k = (a, false, some jsonDecodeError)) := by
  refine ⟨?_, ?_, ?_, ?_, ?_⟩
  · intro a k h
    simp [getAbnormalContext, h]
  · intro a k h
    simp [getAbnormalContext, h]
  · simp [ctxNilError, ctxEmptyError]
  · intro a k h
    rcases h with h | h <;> simp [removeAbnormalContext, h]
  · intro a k h
    simp [removeAbnormalContext, h]

theorem claim_C6_witness :
    getAbnormalContext abnormalNilCtx "key1" = .error ctxNilError ∧
    getAbnormalContext abnormalEmptyCtx "key1" = .error ctxEmptyError ∧
    ctxNilError ≠ ctxEmptyError ∧
    removeAbnormalContext abnormalNilCtx "key1" = (abnormalNilCtx, true, none) ∧
    removeAbnormalContext abnormalCorruptCtx "key1" =
      (abnormalCorruptCtx, false, some jsonDecodeError) :=
  ⟨claim_C6.1 abnormalNilCtx "key1" rfl,
   claim_C6.2.1 abnormalEmptyCtx "key1" rfl,
   claim_C6.2.2.1,
   claim_C6.2.2.2.1 abnormalNilCtx "key1" (Or.inl rfl),
   claim_C6.2.2.2.2 abnormalCorruptCtx "key1" rfl⟩

/-- Claim C7: setting context key k to v and then getting k returns v; set
on a nil or empty context produces a context containing exactly that one
key; set on an existing context overwrites the key while preserving every
other key; and remove of an existing key deletes exactly that key. -/
theorem claim_C7 :
    (∀ a k v, a.status.context ≠ some ⟨some RawBlob.corrupt⟩ →
      ∃ a2, setAbnormalContext a k v = .ok a2 ∧ getAbnormalContext a2 k = .ok v) ∧
    (∀ a k v, a.status.context = none ∨ a.status.context = some ⟨none⟩ →
      setAbnormalContext a k v =
        .ok { a with status := { a.status with
          context := some ⟨some (.obj [(k, v)])⟩ } }) ∧
    (∀ a k v es k2, a.status.context = some ⟨some (.obj es)⟩ → k2 ≠ k →
      ∃ a2, setAbnormalContext a k v = .ok a2 ∧
        getAbnormalContext a2 k2 = getAbnormalContext a k2) ∧
    (∀ a k es, a.status.context = some ⟨some (.obj es)⟩ →
      removeAbnormalContext a k =
        ({ a with status := { a.status with
            context := some ⟨some (.obj (eraseKey k (mapOfEntries es)))⟩ } }, true, none) ∧
      lookupKey k (eraseKey k (mapOfEntries es)) = none ∧
      ∀ k2, k2 ≠ k →
        lookupKey k2 (eraseKey k (mapOfEntries es)) = lookupKey k2 (mapOfEntries es)) := by
  refine ⟨?_, ?_, ?_, ?_⟩
  · intro a k v hnc
    rcases hctx : a.status.context with _ | ⟨_ | blob⟩
    · refine ⟨{ a with status := { a.status with
          context := some ⟨some (.obj [(k, v)])⟩ } },
        by simp [setAbnormalContext, hctx], ?_⟩
      have h0 : ([(k, v)] : List (String × CtxVal)) =
          insertSorted k v (mapOfEntries []) := rfl
      rw [h0]
      exact get_after_set_obj a k v []
    · refine ⟨{ a with status := { a.status with
          context := some ⟨some (.obj [(k, v)])⟩ } },
        by simp [setAbnormalContext, hctx], ?_⟩
      have h0 : ([(k, v)] : List (String × CtxVal)) =
          insertSorted k v (mapOfEntries []) := rfl
      rw [h0]
      exact get_after_set_obj a k v []
    · cases blob with
      | corrupt => exact absurd hctx hnc
      | obj es =>
        exact ⟨{ a with status := { a.status with
            context := some ⟨some (.obj (insertSorted k v (mapOfEntries es)))⟩ } },
          by simp [setAbnormalContext, hctx], get_after_set_obj a k v es⟩
  · intro a k v h
    rcases h with h | h <;> simp [setAbnormalContext, h]
  · intro a k v es k2 hctx hne
    refine ⟨{ a with status := { a.status with
        context := some ⟨some (.obj (insertSorted k v (mapOfEntries es)))⟩ } },
      by simp [setAbnormalContext, hctx], ?_⟩
    have hcan : Canonical (insertSorted k v (mapOfEntries es)) :=
      canonical_insertSorted k v _ (canonical_mapOf es)
    simp [getAbnormalContext, hctx, mapOf_eq_of_canonical _ hcan,
      lookup_insertSorted_ne k v (mapOfEntries es) k2 hne]
  · intro a k es hctx
    refine ⟨by simp [removeAbnormalContext, hctx], lookup_eraseKey_self k _, ?_⟩
    intro k2 h2
    exact lookup_eraseKey_ne k _ k2 h2

theorem claim_C7_witness :
    (∃ a2, setAbnormalContext abnormalObjCtx "key2" (.str "value3") = .ok a2 ∧
      getAbnormalContext a2 "key2" = .ok (.str "value3")) ∧
    setAbnormalContext abnormalNilCtx "key1" (.str "value1") =
      .ok { abnormalNilCtx with status := { abnormalNilCtx.status with
        context := some ⟨some (.obj [("key1", .str "value1")])⟩ } } ∧
    (∃ a2, setAbnormalContext abnormalObjCtx "key2" (.str "value3") = .ok a2 ∧
      getAbnormalContext a2 "key1" = getAbnormalContext abnormalObjCtx "key1") ∧
    lookupKey "key2" (eraseKey "key2" (mapOfEntries objEntries)) = none :=
  ⟨claim_C7.1 abnormalObjCtx "key2" (.str "value3") (by decide),
   claim_C7.2.1 abnormalNilCtx "key1" (.str "value1") (Or.inl rfl),
   claim_C7.2.2.1 abnormalObjCtx "key2" (.str "value3") objEntries "key1" rfl (by decide),
   (claim_C7.2.2.2 abnormalObjCtx "key2" objEntries rfl).2.1⟩

set_option maxHeartbeats 1000000 in
theorem validate_characterization (r c : Abnormal) :
    (validateAbnormalResult r c = .ok () ↔
      (r.spec = c.spec ∧ r.status.identifiable = c.status.identifiable ∧
       r.status.recoverable = c.status.recoverable ∧ r.status.phase = c.status.phase ∧
       r.status.conditions = c.status.conditions ∧ r.status.message = c.status.message ∧
       r.status.reason = c.status.reason ∧ r.status.startTime = c.status.startTime ∧
       r.status.diagnoser = c.status.diagnoser ∧
       r.status.recoverer = c.status.recoverer)) ∧
    validateAbnormalResult r c =
      (match (protectedViolations r c).head? with
       | some m => Except.error m
       | none => Except.ok ()) := by
  unfold validateAbnormalResult protectedViolations
  by_cases h1 : r.spec ≠ c.spec
  · simp [h1]
  · by_cases h2 : r.status.identifiable ≠ c.status.identifiable
    · simp [h1, h2]
    · by_cases h3 : r.status.recoverable ≠ c.status.recoverable
      · simp [h1, h2, h3]
      · by_cases h4 : r.status.phase ≠ c.status.phase
        · simp [h1, h2, h3, h4]
        · by_cases h5 : r.status.conditions ≠ c.status.conditions
          · simp [h1, h2, h3, h4, h5]
          · by_cases h6 : r.status.message ≠ c.status.message
            · simp [h1, h2, h3, h4, h5, h6]
            · by_cases h7 : r.status.reason ≠ c.status.reason
              · simp [h1, h2, h3, h4, h5, h6, h7]
              · by_cases h8 : r.status.startTime ≠ c.status.startTime
                · simp [h1, h2, h3, h4, h5, h6, h7, h8]
                · by_cases h9 : r.status.diagnoser ≠ c.status.diagnoser
                  · simp [h1, h2, h3, h4, h5, h6, h7, h8, h9]
                  · by_cases h10 : r.status.recoverer ≠ c.status.recoverer
                    · simp [h1, h2, h3, h4, h5, h6, h7, h8, h9, h10]
                    · simp only [not_not] at h1 h2 h3 h4 h5 h6 h7 h8 h9 h10
                      simp [h1, h2, h3, h4, h5, h6, h7, h8, h9, h10]

/-- Claim C2 (amended): the result validator rejects exactly when a
protected field differs (the entire spec, identifiable, recoverable, phase,
conditions, message, reason, startTime, diagnoser, recoverer), returning
the error string of the first differing protected field in check order;
those strings read "spec field of Abnormal must not be modified" for the
spec and, with the misspelling "filed", "NAME filed of Abnormal must not be
modified" for the status fields; a result differing only in status context,
command-executor results or profiler results is accepted. -/
theorem claim_C2 (r c : Abnormal) :
    (validateAbnormalResult r c = .ok () ↔
      (r.spec = c.spec ∧ r.status.identifiable = c.status.identifiable ∧
       r.status.recoverable = c.status.recoverable ∧ r.status.phase = c.status.phase ∧
       r.status.conditions = c.status.conditions ∧ r.status.message = c.status.message ∧
       r.status.reason = c.status.reason ∧ r.status.startTime = c.status.startTime ∧
       r.status.diagnoser = c.status.diagnoser ∧
       r.status.recoverer = c.status.recoverer)) ∧
    validateAbnormalResult r c =
      (match (protectedViolations r c).head? with
       | some m => Except.error m
       | none => Except.ok ()) ∧
    (∀ ctx ce pf, validateAbnormalResult
        { c with status := { c.status with
            context := ctx, commandExecutors := ce, profilers := pf } } c = .ok ()) :=
  ⟨(validate_characterization r c).1,
   (validate_characterization r c).2,
   fun ctx ce pf => (validate_characterization
      { c with status := { c.status with
          context := ctx, commandExecutors := ce, profilers := pf } } c).1.mpr
     ⟨rfl, rfl, rfl, rfl, rfl, rfl, rfl, rfl, rfl, rfl⟩⟩

theorem claim_C2_counterexample :
    validateAbnormalResult
      { abnormalNilCtx with status :=
          { abnormalNilCtx.status with identifiable := true } }
      abnormalNilCtx = .error identifiableFieldError ∧
    identifiableFieldError = "identifiable filed of Abnormal must not be modified" ∧
    identifiableFieldError ≠ "identifiable of Abnormal must not be modified" :=
  ⟨by decide, rfl, by decide⟩

theorem isEmpty_false_of_ne_nil {α : Type} {l : List α} (h : l ≠ []) :
    l.isEmpty = false := by
  cases l with
  | nil => exact absurd rfl h
  | cons hd tl => rfl

theorem recoverLoop_cons_of_not_succeeds (env : RecoveryEnv) (a : Abnormal)
    (r : Recoverer) (rest : List Recoverer) (hs : succeedsB env a r = false) :
    recoverLoop env a (r :: rest) = recoverLoop env a rest := by
  cases he : eligibleB a r with
  | false => simp [recoverLoop, he]
  | true =>
    cases hd : env.dispatch r with
    | none => simp [recoverLoop, he, hd]
    | some result =>
      cases hv : validateAbnormalResult result a with
      | error e => simp [recoverLoop, he, hd, hv]
      | ok u =>
        cases u
        simp [succeedsB, he, hd, hv] at hs

theorem recoverLoop_cons_of_succeeds (env : RecoveryEnv) (a : Abnormal)
    (r : Recoverer) (rest : List Recoverer) (hs : succeedsB env a r = true) :
    ∃ result, env.dispatch r = some result ∧
      validateAbnormalResult result a = .ok () ∧
      recoverLoop env a (r :: rest) =
        setAbnormalSucceeded env.now
          { a with status := { result.status with recoverer := some ⟨r.ns, r.name⟩ } } := by
  cases he : eligibleB a r with
  | false => simp [succeedsB, he] at hs
  | true =>
    cases hd : env.dispatch r with
    | none => simp [succeedsB, he, hd] at hs
    | some result =>
      cases hv : validateAbnormalResult result a with
      | error e => simp [succeedsB, he, hd, hv] at hs
      | ok u =>
        cases u
        exact ⟨result, rfl, hv, by simp [recoverLoop, he, hd, hv]⟩

theorem recoverLoop_none (env : RecoveryEnv) (a : Abnormal) (rs : List Recoverer)
    (h : rs.find? (succeedsB env a) = none) :
    recoverLoop env a rs = setAbnormalFailed env.now a := by
  induction rs with
  | nil => rfl
  | cons r rest ih =>
    cases hs : succeedsB env a r with
    | true => simp [List.find?_cons, hs] at h
    | false =>
      have hrest : rest.find? (succeedsB env a) = none := by
        simpa [List.find?_cons, hs] using h
      rw [recoverLoop_cons_of_not_succeeds env a r rest hs]
      exact ih hrest

theorem recoverLoop_some (env : RecoveryEnv) (a : Abnormal) (rs : List Recoverer)
    (r : Recoverer) (h : rs.find? (succeedsB env a) = some r) :
    ∃ result, env.dispatch r = some result ∧
      validateAbnormalResult result a = .ok () ∧
      recoverLoop env a rs =
        setAbnormalSucceeded env.now
          { a with status := { result.status with recoverer := some ⟨r.ns, r.name⟩ } } := by
  induction rs with
  | nil => simp [List.find?] at h
  | cons r0 rest ih =>
    cases hs : succeedsB env a r0 with
    | true =>
      have hr : r0 = r := by simpa [List.find?_cons, hs] using h
      subst hr
      exact recoverLoop_cons_of_succeeds env a r0 rest hs
    | false =>
      have hrest : rest.find? (succeedsB env a) = some r := by
        simpa [List.find?_cons, hs] using h
      obtain ⟨result, hd, hv, hrec⟩ := ih hrest
      exact ⟨result, hd, hv, by
        rw [recoverLoop_cons_of_not_succeeds env a r0 rest hs]; exact hrec⟩

theorem runRecovery_of_ne_nil (env : RecoveryEnv) (recoverers : List Recoverer)
    (a : Abnormal) (h : a.spec.assignedRecoverers ≠ []) :
    runRecovery env recoverers a = recoverLoop env (runEmbedded env a) recoverers := by
  have h2 : (runProfilersStep env (runExecutorsStep env a)).spec.assignedRecoverers ≠ [] := h
  simp [runRecovery, runEmbedded, isEmpty_false_of_ne_nil h2]

/-- Claim C1: with a non-empty assigned-recoverer list the engine iterates
the catalog in catalog order; a recoverer is eligible exactly when its name
and namespace appear in the assigned list; failed dispatches and invalid
responses are skipped; the first catalog entry whose response validates has
its response status adopted, the recoverer identity recorded and the stage
marked succeeded; an exhausted catalog marks the stage failed. -/
theorem claim_C1 (env : RecoveryEnv) (recoverers : List Recoverer) (a : Abnormal)
    (h : a.spec.assignedRecoverers ≠ []) :
    (∀ r, eligibleB (runEmbedded env a) r = true ↔
      ∃ ar ∈ a.spec.assignedRecoverers, r.name = ar.name ∧ r.ns = ar.ns) ∧
    (∀ r, recoverers.find? (succeedsB env (runEmbedded env a)) = some r →
      ∃ result, env.dispatch r = some result ∧
        validateAbnormalResult result (runEmbedded env a) = .ok () ∧
        runRecovery env recoverers a =
          setAbnormalSucceeded env.now
            { runEmbedded env a with status :=
                { result.status with recoverer := some ⟨r.ns, r.name⟩ } }) ∧
    (recoverers.find? (succeedsB env (runEmbedded env a)) = none →
      runRecovery env recoverers a = setAbnormalFailed env.now (runEmbedded env a)) := by
  have hrw : runRecovery env recoverers a = recoverLoop env (runEmbedded env a) recoverers :=
    runRecovery_of_ne_nil env recoverers a h
  refine ⟨?_, ?_, ?_⟩
  · intro r
    simp only [eligibleB, List.any_eq_true, Bool.and_eq_true, decide_eq_true_eq]
    exact Iff.rfl
  · intro r hf
    obtain ⟨result, hd, hv, hrec⟩ := recoverLoop_some env (runEmbedded env a) recoverers r hf
    exact ⟨result, hd, hv, by rw [hrw]; exact hrec⟩
  · intro hf
    rw [hrw]
    exact recoverLoop_none env (runEmbedded env a) recoverers hf

theorem claim_C1_witness :
    abnormalAssigned.spec.assignedRecoverers ≠ [] ∧
    [recoverer1, recoverer2].find?
      (succeedsB envOk (runEmbedded envOk abnormalAssigned)) = some recoverer2 ∧
    ∃ result, envOk.dispatch recoverer2 = some result ∧
      validateAbnormalResult result (runEmbedded envOk abnormalAssigned) = .ok () ∧
      runRecovery envOk [recoverer1, recoverer2] abnormalAssigned =
        setAbnormalSucceeded envOk.now
          { runEmbedded envOk abnormalAssigned with status :=
              { result.status with recoverer := some ⟨recoverer2.ns, recoverer2.name⟩ } } :=
  ⟨by decide, by decide,
   (claim_C1 envOk [recoverer1, recoverer2] abnormalAssigned (by decide)).2.1
     recoverer2 (by decide)⟩

/-- Claim C9: when no eligible recoverer succeeds (every dispatch to an
assigned recoverer is unreachable or returns an invalid response), the
terminal update sets phase to Failed and changes no status field other than
phase, recoverable and conditions: message, reason, startTime,
identifiable, diagnoser, recoverer, context and the command-executor and
profiler result arrays keep their pre-dispatch values. -/
theorem claim_C9 (env : RecoveryEnv) (recoverers : List Recoverer) (a : Abnormal)
    (hne : a.spec.assignedRecoverers ≠ [])
    (hfail : ∀ r ∈ recoverers, succeedsB env (runEmbedded env a) r = false) :
    runRecovery env recoverers a = setAbnormalFailed env.now (runEmbedded env a) ∧
    (runRecovery env recoverers a).status.phase = .failed ∧
    (runRecovery env recoverers a).status.recoverable = false ∧
    (runRecovery env recoverers a).status.message = a.status.message ∧
    (runRecovery env recoverers a).status.reason = a.status.reason ∧
    (runRecovery env recoverers a).status.startTime = a.status.startTime ∧
    (runRecovery env recoverers a).status.identifiable = a.status.identifiable ∧
    (runRecovery env recoverers a).status.diagnoser = a.status.diagnoser ∧
    (runRecovery env recoverers a).status.recoverer = a.status.recoverer ∧
    (runRecovery env recoverers a).status.context = a.status.context ∧
    (runRecovery env recoverers a).status.commandExecutors =
      (runEmbedded env a).status.commandExecutors ∧
    (runRecovery env recoverers a).status.profilers =
      (runEmbedded env a).status.profilers := by
  have hnone : recoverers.find? (succeedsB env (runEmbedded env a)) = none :=
    List.find?_eq_none.mpr (fun x hx => by simp [hfail x hx])
  have h1 : runRecovery env recoverers a = setAbnormalFailed env.now (runEmbedded env a) := by
    rw [runRecovery_of_ne_nil env recoverers a hne]
    exact recoverLoop_none env (runEmbedded env a) recoverers hnone
  rw [h1]
  exact ⟨rfl, rfl, rfl, rfl, rfl, rfl, rfl, rfl, rfl, rfl, rfl, rfl⟩

theorem claim_C9_witness :
    runRecovery envDown [recoverer1, recoverer2] abnormalAssigned =
      setAbnormalFailed envDown.now (runEmbedded envDown abnormalAssigned) ∧
    (runRecovery envDown [recoverer1, recoverer2] abnormalAssigned).status.phase = .failed ∧
    (runRecovery envDown [recoverer1, recoverer2] abnormalAssigned).status.message =
      abnormalAssigned.status.message :=
  ⟨(claim_C9 envDown [recoverer1, recoverer2] abnormalAssigned (by decide) (by decide)).1,
   (claim_C9 envDown [recoverer1, recoverer2] abnormalAssigned (by decide) (by decide)).2.1,
   (claim_C9 envDown [recoverer1, recoverer2] abnormalAssigned (by decide) (by decide)).2.2.2.1⟩

theorem claim_C3_counterexample :
    legacyAbnormalEmptyAssigned.spec.skipRecovery = false ∧
    legacyAbnormalEmptyAssigned.spec.assignedRecoverers = [] ∧
    legacyAbnormalEmptyAssigned.status.phase = .recovering ∧
    legacyRunRecoveryDispatches legacyEnvEcho [recoverer1] legacyAbnormalEmptyAssigned =
      [⟨"default", "recoverer1"⟩] ∧
    legacyRunRecoveryDispatches legacyEnvEcho [recoverer1] legacyAbnormalEmptyAssigned ≠ [] :=
  ⟨rfl, rfl, rfl, by decide, by decide⟩

/-- Claim C3 (amended): in the current engine an Abnormal in Recovering
whose assigned-recoverer list is empty is immediately marked succeeded with
no HTTP dispatch to any recoverer; the current engine consults no
skip-recovery flag (its spec has none).  In the legacy engine only the
skip-recovery flag short-circuits to success without dispatch, while an
empty assigned list instead makes every cataloged recoverer eligible for
dispatch. -/
theorem claim_C3 (env : RecoveryEnv) (recoverers : List Recoverer) (a : Abnormal)
    (lenv : LegacyEnv) (lrecoverers : List Recoverer) (la : LegacyAbnormal) :
    (a.spec.assignedRecoverers = [] →
      runRecovery env recoverers a = setAbnormalSucceeded env.now (runEmbedded env a) ∧
      runRecoveryDispatches env recoverers a = [] ∧
      (runRecovery env recoverers a).status.phase = .succeeded) ∧
    (la.spec.skipRecovery = true →
      legacyRunRecovery lenv lrecoverers la = legacySetAbnormalSucceeded lenv.now la ∧
      legacyRunRecoveryDispatches lenv lrecoverers la = [] ∧
      (legacyRunRecovery lenv lrecoverers la).status.phase = .succeeded) ∧
    (la.spec.skipRecovery = false → la.spec.assignedRecoverers = [] →
      ∀ r ∈ lrecoverers, legacyEligibleB la r = true) := by
  refine ⟨?_, ?_, ?_⟩
  · intro hempty
    have h2 : (runProfilersStep env (runExecutorsStep env a)).spec.assignedRecoverers = [] :=
      hempty
    have hiso : (runProfilersStep env (runExecutorsStep env a)).spec.assignedRecoverers.isEmpty
        = true := by rw [h2]; rfl
    have hr : runRecovery env recoverers a = setAbnormalSucceeded env.now (runEmbedded env a) := by
      simp [runRecovery, runEmbedded, hiso]
    refine ⟨hr, by simp [runRecoveryDispatches, hiso], ?_⟩
    rw [hr]
    rfl
  · intro hskip
    have hr : legacyRunRecovery lenv lrecoverers la = legacySetAbnormalSucceeded lenv.now la := by
      simp [legacyRunRecovery, hskip]
    refine ⟨hr, by simp [legacyRunRecoveryDispatches, hskip], ?_⟩
    rw [hr]
    rfl
  · intro hskip hempty r hr
    simp [legacyEligibleB, hempty]

theorem claim_C3_witness :
    runRecovery envOk [recoverer1] abnormalUnassigned =
      setAbnormalSucceeded envOk.now (runEmbedded envOk abnormalUnassigned) ∧
    runRecoveryDispatches envOk [recoverer1] abnormalUnassigned = [] ∧
    legacyRunRecovery legacyEnvEcho [recoverer1] legacyAbnormalSkip =
      legacySetAbnormalSucceeded legacyEnvEcho.now legacyAbnormalSkip ∧
    legacyRunRecoveryDispatches legacyEnvEcho [recoverer1] legacyAbnormalSkip = [] :=
  ⟨((claim_C3 envOk [recoverer1] abnormalUnassigned
      legacyEnvEcho [recoverer1] legacyAbnormalSkip).1 rfl).1,
   ((claim_C3 envOk [recoverer1] abnormalUnassigned
      legacyEnvEcho [recoverer1] legacyAbnormalSkip).1 rfl).2.1,
   ((claim_C3 envOk [recoverer1] abnormalUnassigned
      legacyEnvEcho [recoverer1] legacyAbnormalSkip).2.1 rfl).1,
   ((claim_C3 envOk [recoverer1] abnormalUnassigned
      legacyEnvEcho [recoverer1] legacyAbnormalSkip).2.1 rfl).2.1⟩

theorem findCondition_update (now : KubeTime) (c : AbnormalCondition)
    (l : List AbnormalCondition) :
    ∃ cd, findCondition (updateConditions now c l).1 c.type = some cd ∧
      cd.status = c.status := by
  induction l with
  | nil =>
    refine ⟨freshCondition now c, ?_, rfl⟩
    simp [updateConditions, findCondition, freshCondition]
  | cons old rest ih =>
    by_cases hty : old.type = c.type
    · by_cases hst : old.status = c.status
      · refine ⟨old, ?_, hst⟩
        simp [updateConditions, hty, hst, findCondition, List.find?_cons]
      · refine ⟨freshCondition now c, ?_, rfl⟩
        simp [updateConditions, hty, hst, findCondition, List.find?_cons, freshCondition]
    · obtain ⟨cd, hf, hs⟩ := ih
      refine ⟨cd, ?_, hs⟩
      simpa [updateConditions, hty, findCondition, List.find?_cons] using hf

/-- Claim C10: every terminal status update of the recoverer chain couples
phase with its bookkeeping: marking succeeded sets phase Succeeded,
Recoverable true and a Recovered condition with status True (also on the
skip path, which uses the same setter), and marking failed sets phase
Failed, Recoverable false and a Recovered condition with status False, in
both the current and the legacy engine generation. -/
theorem claim_C10 (now : KubeTime) (a : Abnormal) (la : LegacyAbnormal) :
    ((setAbnormalSucceeded now a).status.phase = .succeeded ∧
     (setAbnormalSucceeded now a).status.recoverable = true ∧
     ∃ cd, findCondition (setAbnormalSucceeded now a).status.conditions .recovered =
        some cd ∧ cd.status = .isTrue) ∧
    ((setAbnormalFailed now a).status.phase = .failed ∧
     (setAbnormalFailed now a).status.recoverable = false ∧
     ∃ cd, findCondition (setAbnormalFailed now a).status.conditions .recovered =
        some cd ∧ cd.status = .isFalse) ∧
    ((legacySetAbnormalSucceeded now la).status.phase = .succeeded ∧
     (legacySetAbnormalSucceeded now la).status.recoverable = true ∧
     ∃ cd, findCondition (legacySetAbnormalSucceeded now la).status.conditions .recovered =
        some cd ∧ cd.status = .isTrue) ∧
    ((legacySetAbnormalFailed now la).status.phase = .failed ∧
     (legacySetAbnormalFailed now la).status.recoverable = false ∧
     ∃ cd, findCondition (legacySetAbnormalFailed now la).status.conditions .recovered =
        some cd ∧ cd.status = .isFalse) := by
  refine ⟨⟨rfl, rfl, ?_⟩, ⟨rfl, rfl, ?_⟩, ⟨rfl, rfl, ?_⟩, ⟨rfl, rfl, ?_⟩⟩
  · exact findCondition_update now _ _
  · exact findCondition_update now _ _
  · exact findCondition_update now _ _
  · exact findCondition_update now _ _

/-- Claim C4: the recoverer-chain consumer acts on a fetched abnormal
exactly when its live phase is Recovering and the node-affinity filter
passes, where the filter accepts exactly when the spec node name is empty
or equals the engine node name; every other fetched abnormal is dropped
without mutation, never requeued. -/
theorem claim_C4 (nodeName : String) (a : Abnormal) :
    (runStep nodeName (.fetched a) = .sync a ∨ runStep nodeName (.fetched a) = .drop) ∧
    (runStep nodeName (.fetched a) = .sync a ↔
      (a.status.phase = .recovering ∧
        (a.spec.nodeName = "" ∨ a.spec.nodeName = nodeName))) ∧
    (isAbnormalNodeNameMatched a nodeName = true ↔
      (a.spec.nodeName = "" ∨ a.spec.nodeName = nodeName)) := by
  refine ⟨?_, ?_, ?_⟩
  · by_cases hp : a.status.phase = AbnormalPhase.recovering
    · by_cases hm : isAbnormalNodeNameMatched a nodeName = true
      · left
        simp [runStep, hp, hm]
      · right
        simp [runStep, hp, hm]
    · right
      simp [runStep, hp]
  · by_cases hp : a.status.phase = AbnormalPhase.recovering
    · by_cases hm : a.spec.nodeName = "" ∨ a.spec.nodeName = nodeName
      · rcases hm with h | h <;>
          simp [runStep, hp, isAbnormalNodeNameMatched, h]
      · rw [not_or] at hm
        simp [runStep, hp, isAbnormalNodeNameMatched, hm.1, hm.2]
    · simp [runStep, hp]
  · simp [isAbnormalNodeNameMatched]

/-- Claim C8: the HTTP client for a recoverer dispatch is constructed with
a per-call timeout equal to the declared timeoutSeconds of the recoverer
spec, where an unspecified declaration defaults to 30 seconds at admission
and the schema minimum keeps every effective timeout at or above 1
second. -/
theorem claim_C8 (declared : Option Int) (r : Recoverer)
    (hvalid : TimeoutDeclarationValid declared)
    (hstored : r.spec.timeoutSeconds = defaultedTimeoutSeconds declared) :
    recovererClientTimeoutSeconds r = defaultedTimeoutSeconds declared ∧
    (declared = none → recovererClientTimeoutSeconds r = 30) ∧
    1 ≤ recovererClientTimeoutSeconds r := by
  refine ⟨by simp [recovererClientTimeoutSeconds, hstored], ?_, ?_⟩
  · intro h
    subst h
    simp [recovererClientTimeoutSeconds, hstored, defaultedTimeoutSeconds]
  · rw [recovererClientTimeoutSeconds, hstored]
    cases declared with
    | none => simp [defaultedTimeoutSeconds]
    | some t => simpa [defaultedTimeoutSeconds] using hvalid t rfl

theorem claim_C8_witness :
    recovererClientTimeoutSeconds recoverer1 = defaultedTimeoutSeconds (some 30) ∧
    recovererClientTimeoutSeconds recoverer2 = 30 ∧
    1 ≤ recovererClientTimeoutSeconds recoverer1 :=
  ⟨(claim_C8 (some 30) recoverer1 (fun t ht => by cases ht; decide) rfl).1,
   (claim_C8 none recoverer2 (fun t ht => by cases ht) rfl).2.1 rfl,
   (claim_C8 (some 30) recoverer1 (fun t ht => by cases ht; decide) rfl).2.2⟩
